import Mathlib

/-!
Shallow embedding of the Attendance Management System's session engine
(src/routes/terminal.routes.js): duplicate checking, late-cutoff
classification, biometric descriptor fusion, session finalization
(bulk absent marking) and record cancellation, together with proofs of
the spec's testable properties.

Conventions of the embedding:
* Mongo object ids are modelled as natural numbers.
* Timestamps are modelled as JavaScript `Date` values: a calendar day
  (`day : Nat`, the date with time-of-day zeroed, i.e. the value of
  `sessionDate` after `setHours(0,0,0,0)`) together with the
  milliseconds elapsed since that midnight, compared as the absolute
  instant `day * 86400000 + ms`.
* IEEE doubles are modelled exactly: finite values as elements of a
  linear ordered field (instantiated at `ℝ` in the theorems about
  numeric behaviour), and the non-finite values (`NaN`, `±Infinity`)
  that degenerate operations produce as `none` in an `Option`.
-/

namespace AMS

/-- The attendance status values the routes store. -/
inductive Status
  | present
  | late
  | absent
deriving DecidableEq

/-- The `markedBy` field of an attendance record. -/
inductive MarkedBy
  | facial_recognition
  | manual
  | system
deriving DecidableEq

/-! ## CutoffPolicy: `settings.lateCutoffTime` parsing and classification

The route computes (lines 110-114 of terminal.routes.js):
```
const now = new Date();
const cutoffTime = new Date(now);
const [cutoffHours, cutoffMinutes] = settings.lateCutoffTime.split(':');
cutoffTime.setHours(parseInt(cutoffHours), parseInt(cutoffMinutes), 0, 0);
const status = now > cutoffTime ? 'late' : 'present';
```
-/

/-- JavaScript `String.prototype.split(':')` on the character list of the
string: the pieces between the colons, with empty pieces kept
(`"".split(':')` is `[""]`, `":x".split(':')` is `["", "x"]`). -/
def splitColonAux (acc : List Char) : List Char → List (List Char)
  | [] => [acc.reverse]
  | c :: rest => if c = ':' then acc.reverse :: splitColonAux [] rest
                 else splitColonAux (c :: acc) rest

/-- The parts of `lateCutoffTime.split(':')`. -/
def splitColon (s : String) : List (List Char) :=
  splitColonAux [] s.data

/-- JavaScript `parseInt` on such a part: skip leading whitespace, read an
optional sign, then the maximal prefix of decimal digits; `none` models the
`NaN` result (no digits at all, or a missing part, since
`parseInt(undefined)` is `NaN`).  The legacy hexadecimal auto-detection of
`parseInt` ("0x…") is not modelled; on the decimal "H:MM"-shaped strings
the settings store it never fires. -/
def jsParseInt (cs : List Char) : Option Int :=
  let trimmed := cs.dropWhile Char.isWhitespace
  let signed : Int × List Char :=
    match trimmed with
    | '-' :: r => (-1, r)
    | '+' :: r => (1, r)
    | r => (1, r)
  let ds := signed.2.takeWhile Char.isDigit
  if ds.isEmpty then none
  else some (signed.1 * (ds.foldl (fun n c => n * 10 + (c.toNat - '0'.toNat)) 0 : Nat))

/-- Milliseconds per day, as in JavaScript `Date` arithmetic. -/
def msPerDay : Int := 86400000

/-- Milliseconds per hour. -/
def msPerHour : Int := 3600000

/-- Milliseconds per minute. -/
def msPerMinute : Int := 60000

/-- The instant denoted by `cutoffTime` after
`cutoffTime.setHours(parseInt(h), parseInt(m), 0, 0)` on a copy of `now`:
the start of `now`'s calendar day plus `h` hours plus `m` minutes
(`setHours` accepts any integers and rolls out-of-range values over by
plain date arithmetic).  `none` models the case where either `parseInt`
returned `NaN`, which leaves `cutoffTime` an *Invalid Date*. -/
def cutoffInstant (day : Nat) (lateCutoffTime : String) : Option Int :=
  let parts := splitColon lateCutoffTime
  match (parts[0]?).bind jsParseInt, (parts[1]?).bind jsParseInt with
  | some h, some m => some ((day : Int) * msPerDay + h * msPerHour + m * msPerMinute)
  | _, _ => none

/-- `const status = now > cutoffTime ? 'late' : 'present'`, where `now` is
the instant `day * msPerDay + nowMs` (`nowMs` = milliseconds since the
local midnight of `day`).  Any comparison with an Invalid Date is `false`
in JavaScript, so a `NaN` cutoff classifies as `present`. -/
def classify (day nowMs : Nat) (lateCutoffTime : String) : Status :=
  match cutoffInstant day lateCutoffTime with
  | some cutoff =>
      if (day : Int) * msPerDay + nowMs > cutoff then Status.late else Status.present
  | none => Status.present

/-! ## SignatureFusion: the descriptor update of POST /api/mark-attendance

Lines 144-153 of terminal.routes.js:
```
const alpha = 0.15;
const updatedDescriptor = existingDescriptor.map((oldVal, i) => {
  return oldVal * (1 - alpha) + faceDescriptor[i] * alpha;
});
const magnitude = Math.sqrt(updatedDescriptor.reduce((sum, val) => sum + val * val, 0));
const normalizedDescriptor = updatedDescriptor.map(val => val / magnitude);
```
The arithmetic is on IEEE doubles.  We model a double as `Option α` over a
linear ordered field `α`: `some x` is the finite value `x` held exactly,
`none` is a non-finite value (`NaN` or `±Infinity`).  The only operation
below that produces a non-finite value from finite ones is division by
zero; every operation propagates non-finiteness.  The fixed blend factor
`alpha` is generalized to a `weight` parameter (the route instantiates it
with `alpha = 0.15`), and `Math.sqrt` is passed in as the field's square
root (instantiated with `Real.sqrt` at `α = ℝ`). -/

/-- A JavaScript number: a finite field element, or a non-finite value. -/
abbrev JSNum (α : Type) := Option α

/-- Addition of JavaScript numbers; non-finiteness propagates. -/
def jsAdd {α : Type} [LinearOrderedField α] : JSNum α → JSNum α → JSNum α
  | some x, some y => some (x + y)
  | _, _ => none

/-- Multiplication of JavaScript numbers; non-finiteness propagates. -/
def jsMul {α : Type} [LinearOrderedField α] : JSNum α → JSNum α → JSNum α
  | some x, some y => some (x * y)
  | _, _ => none

/-- Division of JavaScript numbers: a zero divisor produces a non-finite
result (`0/0 = NaN`, `x/0 = ±Infinity`); non-finiteness propagates. -/
def jsDiv {α : Type} [LinearOrderedField α] : JSNum α → JSNum α → JSNum α
  | some x, some y => if y = 0 then none else some (x / y)
  | _, _ => none

/-- `Math.sqrt`: `NaN` on negative or non-finite input. -/
def jsSqrt {α : Type} [LinearOrderedField α] (sqrt : α → α) : JSNum α → JSNum α
  | some x => if x < 0 then none else some (sqrt x)
  | none => none

/-- `existingDescriptor.map((oldVal, i) => oldVal*(1-alpha) + faceDescriptor[i]*alpha)`.
The route only runs this when both vectors have length 128, so the index
`i` never runs off `faceDescriptor`; `zipWith` agrees with the JavaScript
`map` on equal-length vectors. -/
def blendDescriptors {α : Type} [LinearOrderedField α]
    (existing observed : List (JSNum α)) (weight : α) : List (JSNum α) :=
  List.zipWith
    (fun oldVal newVal => jsAdd (jsMul oldVal (some (1 - weight))) (jsMul newVal (some weight)))
    existing observed

/-- `Math.sqrt(updatedDescriptor.reduce((sum, val) => sum + val * val, 0))`. -/
def jsMagnitude {α : Type} [LinearOrderedField α] (sqrt : α → α) (v : List (JSNum α)) : JSNum α :=
  jsSqrt sqrt (v.foldl (fun sum val => jsAdd sum (jsMul val val)) (some 0))

/-- `updatedDescriptor.map(val => val / magnitude)`. -/
def jsNormalize {α : Type} [LinearOrderedField α] (sqrt : α → α) (v : List (JSNum α)) :
    List (JSNum α) :=
  v.map (fun val => jsDiv val (jsMagnitude sqrt v))

/-- The whole fusion step: blend, then L2-normalize. -/
def fuseSignature {α : Type} [LinearOrderedField α] (sqrt : α → α)
    (existing observed : List (JSNum α)) (weight : α) : List (JSNum α) :=
  jsNormalize sqrt (blendDescriptors existing observed weight)

/-- The per-dimension blend `existing[i]*(1-w) + observed[i]*w` on exact
real vectors, for stating what `fuseSignature` computes on finite input. -/
def blendReal (existing observed : List ℝ) (w : ℝ) : List ℝ :=
  List.zipWith (fun a b => a * (1 - w) + b * w) existing observed

/-- Sum of squares of a real vector (the square of its L2 norm). -/
def sumSquares (v : List ℝ) : ℝ :=
  (v.map (fun x => x * x)).sum

/-! ## Data model (src/models, as read by terminal.routes.js)

Only the fields the routes read or write are modelled.  `α` is the
scalar type of stored face descriptors (`ℝ` for the real program). -/

/-- A `Student` document: `_id`, `classRef`, `isEnrolled`, `faceDescriptor`,
`descriptorUpdateCount` (the `lastDescriptorUpdate` timestamp is not
modelled; no route reads it). -/
structure Student (α : Type) where
  id : Nat
  classRef : Nat
  isEnrolled : Bool
  faceDescriptor : List (JSNum α)
  descriptorUpdateCount : Nat
deriving DecidableEq

/-- An `Attendance` document.  `sessionDate` is the session day (date with
time-of-day zeroed); the exact `timestamp` of marking is not modelled (no
claim mentions it).  Confidence scores arrive as JSON numbers and are
modelled as rationals. -/
structure AttendanceRecord where
  recId : Nat
  studentRef : Nat
  courseRef : Nat
  classRef : Nat
  status : Status
  confidenceScore : ℚ
  markedBy : MarkedBy
  sessionDate : Nat
deriving DecidableEq

/-- The persistent state the routes read and write: the student collection,
the attendance collection, and a fresh-id counter standing for MongoDB's
generation of distinct `_id`s. -/
structure LedgerState (α : Type) where
  students : List (Student α)
  records : List AttendanceRecord
  nextId : Nat
deriving DecidableEq

/-- `Attendance.findOne({ studentRef, courseRef, sessionDate })` — the
duplicate check both marking routes run first. -/
def findAttendance (records : List AttendanceRecord) (studentId courseId day : Nat) :
    Option AttendanceRecord :=
  records.find? (fun r =>
    r.studentRef == studentId && r.courseRef == courseId && r.sessionDate == day)

/-- Outcome of a marking route.  `duplicate b` is the 400 response
`{ error: 'Attendance already marked', alreadyMarked: b }`;
`studentNotFound` the 404 response.  The `Missing required fields`
validation of the HTTP layer is not modelled: the arguments below are the
already-present fields. -/
inductive MarkOutcome
  | marked (rec : AttendanceRecord)
  | duplicate (alreadyMarked : Bool)
  | studentNotFound
deriving DecidableEq

/-- POST /api/mark-attendance (the biometric path, lines 68-182).  In
request order: duplicate check; cutoff classification of `now` against the
operator's `lateCutoffTime` (settings lookup passed in as the string);
student lookup; record creation with `confidenceScore || 0` and
`markedBy: 'facial_recognition'`; then, when the new descriptor has length
128 and the confidence is at least 0.6 and the stored descriptor has
length 128, the fire-and-forget fusion update of the student's stored
descriptor (modelled as completing before the next operation; the route
answers without waiting for it). -/
def markAttendance {α : Type} [LinearOrderedField α] (sqrt : α → α) (st : LedgerState α)
    (studentId courseId classId : Nat) (confidenceScore : Option ℚ)
    (faceDescriptor : Option (List α)) (day nowMs : Nat) (lateCutoffTime : String) :
    LedgerState α × MarkOutcome :=
  match findAttendance st.records studentId courseId day with
  | some _ => (st, MarkOutcome.duplicate true)
  | none =>
    let status := classify day nowMs lateCutoffTime
    match st.students.find? (fun s => s.id == studentId) with
    | none => (st, MarkOutcome.studentNotFound)
    | some student =>
      let newRec : AttendanceRecord :=
        { recId := st.nextId, studentRef := studentId, courseRef := courseId,
          classRef := classId, status := status,
          confidenceScore := confidenceScore.getD 0,
          markedBy := MarkedBy.facial_recognition, sessionDate := day }
      let students1 : List (Student α) :=
        match faceDescriptor, confidenceScore with
        | some fd, some conf =>
          if fd.length == 128 && decide ((6 / 10 : ℚ) ≤ conf)
              && student.faceDescriptor.length == 128 then
            st.students.map (fun s =>
              if s.id == studentId then
                { s with
                  faceDescriptor :=
                    fuseSignature sqrt s.faceDescriptor (fd.map some) (15 / 100),
                  descriptorUpdateCount := s.descriptorUpdateCount + 1 }
              else s)
          else st.students
        | _, _ => st.students
      ({ students := students1, records := st.records ++ [newRec], nextId := st.nextId + 1 },
       MarkOutcome.marked newRec)

/-- POST /api/manual-mark-attendance (lines 269-324).  `status` is already
one of present/late/absent (the route rejects anything else before
touching state, which the `Status` type captures).  The record is created
with confidence 0 for absent and 1 otherwise, `markedBy: 'manual'`, and no
fusion; the student fetch afterwards only fills the response. -/
def markManual {α : Type} (st : LedgerState α) (studentId courseId classId : Nat)
    (status : Status) (day : Nat) : LedgerState α × MarkOutcome :=
  match findAttendance st.records studentId courseId day with
  | some _ => (st, MarkOutcome.duplicate true)
  | none =>
    let newRec : AttendanceRecord :=
      { recId := st.nextId, studentRef := studentId, courseRef := courseId,
        classRef := classId, status := status,
        confidenceScore := if status = Status.absent then 0 else 1,
        markedBy := MarkedBy.manual, sessionDate := day }
    ({ st with records := st.records ++ [newRec], nextId := st.nextId + 1 },
     MarkOutcome.marked newRec)

/-- The shape mongoose returns for
`Attendance.find({...}).select('studentRef')`: only `studentRef` is
fetched; every other field — `status` included — is `undefined`,
modelled as `none`. -/
structure ProjRecord where
  studentRef : Nat
  status : Option Status
deriving DecidableEq

/-- `Student.find({ classRef, isEnrolled: true })` — the enrolled roster of
a class, from the student collection. -/
def enrolledStudents {α : Type} (students : List (Student α)) (classId : Nat) :
    List (Student α) :=
  students.filter (fun s => s.classRef == classId && s.isEnrolled)

/-- `Attendance.find({ courseRef, classRef, sessionDate }).select('studentRef')`
— today's marked records for the session, projected to `studentRef`. -/
def markedProj (records : List AttendanceRecord) (classId courseId day : Nat) :
    List ProjRecord :=
  (records.filter (fun r =>
    r.courseRef == courseId && r.classRef == classId && r.sessionDate == day)).map
    (fun r => { studentRef := r.studentRef, status := none })

/-- The unmarked-student computation shared by GET /api/unmarked-students
and POST /api/end-session: enrolled students whose id is not among the
marked `studentRef`s. -/
def unmarkedStudentsOf {α : Type} (students : List (Student α))
    (records : List AttendanceRecord) (classId courseId day : Nat) : List (Student α) :=
  (enrolledStudents students classId).filter (fun s =>
    !((markedProj records classId courseId day).map (fun a => a.studentRef)).contains s.id)

/-- The absent records `insertMany` creates for the unmarked students, with
MongoDB assigning a fresh distinct `_id` to each. -/
def mkAbsentRecords {α : Type} (firstId courseId classId day : Nat) :
    List (Student α) → List AttendanceRecord
  | [] => []
  | s :: rest =>
    { recId := firstId, studentRef := s.id, courseRef := courseId, classRef := classId,
      status := Status.absent, confidenceScore := 0, markedBy := MarkedBy.system,
      sessionDate := day } :: mkAbsentRecords (firstId + 1) courseId classId day rest

/-- The JSON body of POST /api/end-session's response (the `message` string
and the echoed `unmarkedStudents` list are omitted; `presentCount` is the
field of that name, `absentCount` is `markedAbsentCount`). -/
structure EndSessionResponse where
  totalStudents : Nat
  presentCount : Nat
  absentCount : Nat
deriving DecidableEq

/-- POST /api/end-session (lines 327-389): compute the enrolled roster, the
marked records (projected by `.select('studentRef')`), and the unmarked
students; when `markAbsent` and some student is unmarked, bulk-insert
absent records for them.  `presentCount` is
`markedAttendance.filter(a => a.status !== 'absent').length` — on the
projected records `a.status` is `undefined`, never equal to `'absent'`. -/
def endSession {α : Type} (st : LedgerState α) (classId courseId : Nat) (markAbsent : Bool)
    (day : Nat) : LedgerState α × EndSessionResponse :=
  let allStudents := enrolledStudents st.students classId
  let marked := markedProj st.records classId courseId day
  let unmarked := unmarkedStudentsOf st.students st.records classId courseId day
  let presentCount := (marked.filter (fun a => a.status != some Status.absent)).length
  if markAbsent && decide (0 < unmarked.length) then
    let absentRecords := mkAbsentRecords st.nextId courseId classId day unmarked
    ({ st with records := st.records ++ absentRecords,
               nextId := st.nextId + absentRecords.length },
     { totalStudents := allStudents.length, presentCount := presentCount,
       absentCount := unmarked.length })
  else
    (st, { totalStudents := allStudents.length, presentCount := presentCount,
           absentCount := 0 })

/-- Outcome of DELETE /api/cancel-attendance/:attendanceId. -/
inductive CancelOutcome
  | deleted (rec : AttendanceRecord)
  | notFound
deriving DecidableEq

/-- DELETE /api/cancel-attendance/:attendanceId (lines 392-412):
`Attendance.findByIdAndDelete` — remove the record with the given `_id`
and return it, or a 404 when it does not exist. -/
def cancelAttendance {α : Type} (st : LedgerState α) (attendanceId : Nat) :
    LedgerState α × CancelOutcome :=
  match st.records.find? (fun r => r.recId == attendanceId) with
  | none => (st, CancelOutcome.notFound)
  | some r =>
    ({ st with records := st.records.filter (fun q => q.recId != attendanceId) },
     CancelOutcome.deleted r)

/-! ## Operation sequences over the ledger -/

/-- One engine operation, for reasoning about arbitrary interleavings. -/
inductive Op (α : Type)
  | markBiometric (studentId courseId classId : Nat) (confidenceScore : Option ℚ)
      (faceDescriptor : Option (List α)) (day nowMs : Nat) (lateCutoffTime : String)
  | markManual (studentId courseId classId : Nat) (status : Status) (day : Nat)
  | finalize (classId courseId : Nat) (markAbsent : Bool) (day : Nat)
  | cancel (attendanceId : Nat)

/-- Execute one operation, discarding the response. -/
def applyOp {α : Type} [LinearOrderedField α] (sqrt : α → α) (st : LedgerState α) :
    Op α → LedgerState α
  | Op.markBiometric sid cid clsId conf fd day nowMs cutoff =>
      (markAttendance sqrt st sid cid clsId conf fd day nowMs cutoff).1
  | Op.markManual sid cid clsId status day => (markManual st sid cid clsId status day).1
  | Op.finalize clsId cid markAbsent day => (endSession st clsId cid markAbsent day).1
  | Op.cancel aid => (cancelAttendance st aid).1

/-- Execute a sequence of operations. -/
def applyOps {α : Type} [LinearOrderedField α] (sqrt : α → α) (st : LedgerState α)
    (ops : List (Op α)) : LedgerState α :=
  ops.foldl (applyOp sqrt) st

/-- The records held for one (member, course, session-day) key. -/
def recordsFor {α : Type} (st : LedgerState α) (studentId courseId day : Nat) :
    List AttendanceRecord :=
  st.records.filter (fun r =>
    r.studentRef == studentId && r.courseRef == courseId && r.sessionDate == day)

/-- The uniqueness invariant: at most one attendance record per
(member, course, session-day) triple. -/
def AtMostOneRecord {α : Type} (st : LedgerState α) : Prop :=
  ∀ studentId courseId day, (recordsFor st studentId courseId day).length ≤ 1

/-- The (member, course, session-day) key of a record. -/
def recKey (r : AttendanceRecord) : Nat × Nat × Nat :=
  (r.studentRef, r.courseRef, r.sessionDate)

/-- The (id, classRef) skeleton of the student collection: marking and
finalization never change it (only descriptors are rewritten). -/
def rosterOf {α : Type} (students : List (Student α)) : List (Nat × Nat) :=
  students.map (fun s => (s.id, s.classRef))

/-- Class-consistency of one operation against a roster: a marking request
carries the class its member is actually enrolled in (the routes accept an
arbitrary `classId` from the request body — this predicate singles out the
well-formed calls).  Finalize and Cancel carry no such obligation. -/
def opOK {α : Type} (roster : List (Nat × Nat)) : Op α → Bool
  | Op.markBiometric sid _ clsId _ _ _ _ _ =>
      roster.all (fun p => !(p.1 == sid) || p.2 == clsId)
  | Op.markManual sid _ clsId _ _ =>
      roster.all (fun p => !(p.1 == sid) || p.2 == clsId)
  | _ => true

/-- All record keys are pairwise distinct. -/
def KeysNodup {α : Type} (st : LedgerState α) : Prop :=
  (st.records.map recKey).Nodup

/-- Every record carries the class of its member, for members present in
the roster. -/
def ClassConsistent {α : Type} (st : LedgerState α) : Prop :=
  ∀ r ∈ st.records, ∀ p ∈ rosterOf st.students, p.1 = r.studentRef → r.classRef = p.2

/-- Student ids are pairwise distinct (MongoDB `_id`s). -/
def IdsNodup {α : Type} (st : LedgerState α) : Prop :=
  (st.students.map (fun s => s.id)).Nodup

/-- The record POST /api/mark-attendance creates (named for stating which
record a successful biometric mark appends). -/
def bioRecord {α : Type} (st : LedgerState α) (sid cid clsId : Nat) (conf : Option ℚ)
    (day nowMs : Nat) (cutoff : String) : AttendanceRecord :=
  { recId := st.nextId, studentRef := sid, courseRef := cid, classRef := clsId,
    status := classify day nowMs cutoff, confidenceScore := conf.getD 0,
    markedBy := MarkedBy.facial_recognition, sessionDate := day }

/-! ## Concrete instances used by counterexamples and witnesses -/

/-- An enrolled member of class 10 with real-valued (empty) descriptor. -/
def cexStudent : Student ℝ :=
  { id := 1, classRef := 10, isEnrolled := true, faceDescriptor := [],
    descriptorUpdateCount := 0 }

/-- An empty ledger whose roster holds only `cexStudent`. -/
def cexInit : LedgerState ℝ :=
  { students := [cexStudent], records := [], nextId := 0 }

/-- A manual mark naming class 99 — not the member's enrolled class 10 —
followed by Finalize for the member's real class.  The routes accept the
mismatched `classId` without checking it. -/
def cexOps : List (Op ℝ) :=
  [Op.markManual 1 20 99 Status.present 5, Op.finalize 10 20 true 5]

/-- A member whose stored signature is the 128-dimensional zero vector. -/
def zeroSigStudent (sid cls cnt : Nat) : Student ℝ :=
  { id := sid, classRef := cls, isEnrolled := true,
    faceDescriptor := List.replicate 128 (some (0:ℝ)), descriptorUpdateCount := cnt }

/-- A ledger holding one such member and no attendance records. -/
def zeroSigState (sid cls cnt nid : Nat) : LedgerState ℝ :=
  { students := [zeroSigStudent sid cls cnt], records := [], nextId := nid }

/-- A concrete enrolled member of class 10, with no stored signature
(rational scalars so that hypotheses evaluate by `decide`). -/
def wStudent : Student ℚ :=
  { id := 1, classRef := 10, isEnrolled := true, faceDescriptor := [],
    descriptorUpdateCount := 0 }

/-- A present record for (member 1, course 20, day 5). -/
def wRecord : AttendanceRecord :=
  { recId := 0, studentRef := 1, courseRef := 20, classRef := 10, status := Status.present,
    confidenceScore := 1, markedBy := MarkedBy.manual, sessionDate := 5 }

/-- An absent record for (member 1, course 20, day 5), as a manual absent
mark produces. -/
def wAbsentRecord : AttendanceRecord :=
  { recId := 0, studentRef := 1, courseRef := 20, classRef := 10, status := Status.absent,
    confidenceScore := 0, markedBy := MarkedBy.manual, sessionDate := 5 }

/-- A ledger where member 1 is already marked for (course 20, day 5). -/
def wMarkedState : LedgerState ℚ :=
  { students := [wStudent], records := [wRecord], nextId := 1 }

/-- A ledger with member 1 enrolled and no attendance records. -/
def wFreshState : LedgerState ℚ :=
  { students := [wStudent], records := [], nextId := 0 }

/-- A ledger where member 1 is marked *absent* for (course 20, day 5). -/
def wAbsentState : LedgerState ℚ :=
  { students := [wStudent], records := [wAbsentRecord], nextId := 1 }

/-! ## C2: cutoff classification boundary -/

/-- C2: with a well-formed cutoff whose hour `h` and minute `m` parse from
the operator's `lateCutoffTime`, an event at `nowMs` milliseconds after
midnight of the session day classifies `late` exactly when it is strictly
after the cutoff instant (the cutoff hour:minute of the same calendar day,
seconds zeroed), and `present` otherwise — in particular an event exactly
at the cutoff is `present`. -/
theorem classify_cutoff_boundary (day nowMs : Nat) (cutoff : String) (h m : Nat)
    (hh : ((splitColon cutoff)[0]?).bind jsParseInt = some (h : Int))
    (hm : ((splitColon cutoff)[1]?).bind jsParseInt = some (m : Int))
    (hhb : h ≤ 23) (hmb : m ≤ 59) :
    (classify day nowMs cutoff = Status.late
      ↔ ((h : Int) * msPerHour + (m : Int) * msPerMinute < (nowMs : Int)))
    ∧ (classify day nowMs cutoff = Status.present
      ↔ ((nowMs : Int) ≤ (h : Int) * msPerHour + (m : Int) * msPerMinute)) := by
  have hcut : cutoffInstant day cutoff
      = some ((day : Int) * msPerDay + (h : Int) * msPerHour + (m : Int) * msPerMinute) := by
    simp only [cutoffInstant, hh, hm]
  have harith : ((day : Int) * msPerDay + (nowMs : Int)
        > (day : Int) * msPerDay + (h : Int) * msPerHour + (m : Int) * msPerMinute)
      ↔ ((h : Int) * msPerHour + (m : Int) * msPerMinute < (nowMs : Int)) := by
    constructor <;> intro hlt <;> omega
  constructor
  · simp only [classify, hcut]
    split_ifs with hc
    · simp only [gt_iff_lt] at hc
      rw [← harith] at *
      simp [hc]
    · simp only [gt_iff_lt, not_lt] at hc
      constructor
      · intro habs; exact absurd habs (by simp)
      · intro hlt; exfalso; omega
  · simp only [classify, hcut]
    split_ifs with hc
    · simp only [gt_iff_lt] at hc
      constructor
      · intro habs; exact absurd habs (by simp)
      · intro hle; exfalso; omega
    · simp only [gt_iff_lt, not_lt] at hc
      constructor
      · intro _; omega
      · intro _; rfl

/-- Witness for C2: cutoff "09:00"; an event at 09:00:01 of the day is
`late`, an event at 08:59:59 is `present`. -/
theorem classify_cutoff_boundary_witness :
    (((splitColon "09:00")[0]?).bind jsParseInt = some 9)
    ∧ (((splitColon "09:00")[1]?).bind jsParseInt = some 0)
    ∧ (9 : Nat) ≤ 23 ∧ (0 : Nat) ≤ 59
    ∧ classify 0 (9 * 3600000 + 1000) "09:00" = Status.late
    ∧ classify 0 (8 * 3600000 + 59 * 60000 + 59000) "09:00" = Status.present := by
  refine ⟨by decide, by decide, by decide, by decide, ?_, ?_⟩
  · exact (classify_cutoff_boundary 0 (9 * 3600000 + 1000) "09:00" 9 0
      (by decide) (by decide) (by decide) (by decide)).1.mpr (by decide)
  · exact (classify_cutoff_boundary 0 (8 * 3600000 + 59 * 60000 + 59000) "09:00" 9 0
      (by decide) (by decide) (by decide) (by decide)).2.mpr (by decide)

/-! ## C3: malformed cutoff strings -/

/-- C3 counterexample: on the malformed cutoff "aa:bb" (non-numeric parts)
the classification call does not fail — it has no failure outcome at all —
and silently returns the default `present`: `parseInt` yields `NaN`,
`setHours` leaves the cutoff an Invalid Date, and `now > cutoffTime` is
`false`. -/
theorem classify_malformed_cex :
    cutoffInstant 0 "aa:bb" = none ∧ classify 0 0 "aa:bb" = Status.present := by
  decide

/-- C3 amended: a malformed cutoff whose hour or minute part does not parse
to a number never fails the classification call; it silently classifies
the event as `present`. -/
theorem classify_malformed_defaults (day nowMs : Nat) (s : String)
    (h : cutoffInstant day s = none) : classify day nowMs s = Status.present := by
  rw [classify, h]

/-- Witness for the amended C3 at the malformed cutoff "xx:30". -/
theorem classify_malformed_defaults_witness :
    cutoffInstant 3 "xx:30" = none ∧ classify 3 12345 "xx:30" = Status.present :=
  ⟨by decide, classify_malformed_defaults 3 12345 "xx:30" (by decide)⟩

/-! ## C4/C5: what the fusion step computes on finite input -/

/-- On finite (exact) vectors the blend step computes the real blend. -/
theorem blendDescriptors_map_some (existing observed : List ℝ) (w : ℝ) :
    blendDescriptors (existing.map some) (observed.map some) w
      = (blendReal existing observed w).map some := by
  induction existing generalizing observed with
  | nil => simp [blendDescriptors, blendReal]
  | cons a l ih =>
    cases observed with
    | nil => simp [blendDescriptors, blendReal]
    | cons b l2 =>
      simp only [blendDescriptors, blendReal, List.map_cons, List.zipWith_cons_cons,
        jsAdd, jsMul] at ih ⊢
      exact congrArg _ (ih l2)

/-- The reduce-with-`+ val*val` fold on finite values is the real sum of
squares. -/
theorem foldl_jsAdd_sq (l : List ℝ) (a : ℝ) :
    (l.map some).foldl (fun sum val => jsAdd sum (jsMul val val)) (some a)
      = some (a + sumSquares l) := by
  induction l generalizing a with
  | nil => simp [sumSquares]
  | cons x xs ih =>
    simp only [sumSquares, List.map_cons, List.foldl_cons, List.sum_cons, jsAdd, jsMul] at ih ⊢
    rw [ih]
    exact congrArg _ (by ring)

/-- A sum of squares is nonnegative. -/
theorem sumSquares_nonneg (l : List ℝ) : 0 ≤ sumSquares l := by
  apply List.sum_nonneg
  intro x hx
  obtain ⟨y, -, rfl⟩ := List.mem_map.mp hx
  exact mul_self_nonneg y

/-- On a finite vector the magnitude is the real L2 norm. -/
theorem jsMagnitude_map_some (l : List ℝ) :
    jsMagnitude Real.sqrt (l.map some) = some (Real.sqrt (sumSquares l)) := by
  rw [jsMagnitude, foldl_jsAdd_sq, zero_add, jsSqrt]
  rw [if_neg (not_lt.mpr (sumSquares_nonneg l))]

/-- On a finite vector of nonzero norm, normalization divides each entry by
the norm. -/
theorem jsNormalize_map_some (l : List ℝ) (h : sumSquares l ≠ 0) :
    jsNormalize Real.sqrt (l.map some)
      = l.map (fun x => some (x / Real.sqrt (sumSquares l))) := by
  have hpos : (0 : ℝ) < Real.sqrt (sumSquares l) :=
    Real.sqrt_pos.mpr (lt_of_le_of_ne (sumSquares_nonneg l) (Ne.symm h))
  rw [jsNormalize, jsMagnitude_map_some, List.map_map]
  apply List.map_congr_left
  intro x _
  simp only [Function.comp_apply, jsDiv, if_neg (ne_of_gt hpos)]

/-- On a finite vector of zero norm, every entry of the normalized vector
is the non-finite `0 / 0`. -/
theorem jsNormalize_zero_norm (l : List ℝ) (h : sumSquares l = 0) :
    jsNormalize Real.sqrt (l.map some) = List.replicate l.length none := by
  rw [jsNormalize, jsMagnitude_map_some, h, Real.sqrt_zero, List.map_map]
  rw [show ((fun val => jsDiv val (some (0:ℝ))) ∘ some) = fun _ => (none : JSNum ℝ) by
    funext x; simp [jsDiv]]
  exact List.map_const' l none

/-- Scaling every entry by `1/c` divides the sum of squares by `c * c`. -/
theorem sumSquares_map_div (l : List ℝ) (c : ℝ) :
    sumSquares (l.map (fun x => x / c)) = sumSquares l / (c * c) := by
  induction l with
  | nil => simp [sumSquares]
  | cons x xs ih =>
    simp only [sumSquares, List.map_cons, List.map_map, List.sum_cons] at ih ⊢
    rw [ih, div_mul_div_comm, div_add_div_same]

/-- C4: on equal-length nonempty finite vectors, with any weight in (0,1]
whose blend is non-degenerate, the fused signature is the per-dimension
blend `existing[i]*(1-w) + observed[i]*w` divided by its L2 norm, and the
result has exactly unit L2 norm. -/
theorem fuseSignature_normalizes (existing observed : List ℝ) (w : ℝ)
    (hlen : existing.length = observed.length) (hne : existing ≠ [])
    (hw0 : 0 < w) (hw1 : w ≤ 1)
    (hnz : sumSquares (blendReal existing observed w) ≠ 0) :
    fuseSignature Real.sqrt (existing.map some) (observed.map some) w
      = (blendReal existing observed w).map
          (fun x => some (x / Real.sqrt (sumSquares (blendReal existing observed w))))
    ∧ Real.sqrt (sumSquares ((blendReal existing observed w).map
        (fun x => x / Real.sqrt (sumSquares (blendReal existing observed w))))) = 1 := by
  constructor
  · rw [fuseSignature, blendDescriptors_map_some, jsNormalize_map_some _ hnz]
  · have hS : (0 : ℝ) < sumSquares (blendReal existing observed w) :=
      lt_of_le_of_ne (sumSquares_nonneg _) (Ne.symm hnz)
    rw [sumSquares_map_div, Real.mul_self_sqrt hS.le, div_self hnz, Real.sqrt_one]

/-- Witness for C4: the spec's scenario, existing `[1,0]`, observed `[0,1]`,
weight `0.5`: the blend is `[0.5, 0.5]` and the output is the blend
normalized to unit norm. -/
theorem fuseSignature_normalizes_witness :
    ([(1:ℝ), 0].length = [(0:ℝ), 1].length) ∧ ([(1:ℝ), 0] ≠ [])
    ∧ ((0:ℝ) < 1/2) ∧ ((1/2:ℝ) ≤ 1)
    ∧ sumSquares (blendReal [(1:ℝ), 0] [(0:ℝ), 1] (1/2)) ≠ 0
    ∧ blendReal [(1:ℝ), 0] [(0:ℝ), 1] (1/2) = [1/2, 1/2]
    ∧ (fuseSignature Real.sqrt ([(1:ℝ), 0].map some) ([(0:ℝ), 1].map some) (1/2)
        = (blendReal [(1:ℝ), 0] [(0:ℝ), 1] (1/2)).map
            (fun x => some (x / Real.sqrt (sumSquares (blendReal [(1:ℝ), 0] [(0:ℝ), 1] (1/2)))))
      ∧ Real.sqrt (sumSquares ((blendReal [(1:ℝ), 0] [(0:ℝ), 1] (1/2)).map
          (fun x => x / Real.sqrt (sumSquares (blendReal [(1:ℝ), 0] [(0:ℝ), 1] (1/2)))))) = 1) := by
  have hb : blendReal [(1:ℝ), 0] [(0:ℝ), 1] (1/2) = [1/2, 1/2] := by
    norm_num [blendReal]
  have hnz : sumSquares (blendReal [(1:ℝ), 0] [(0:ℝ), 1] (1/2)) ≠ 0 := by
    rw [hb]
    norm_num [sumSquares]
  exact ⟨by simp, by simp, by norm_num, by norm_num, hnz, hb,
    fuseSignature_normalizes [(1:ℝ), 0] [(0:ℝ), 1] (1/2) (by simp) (by simp)
      (by norm_num) (by norm_num) hnz⟩

/-- Blending the zero vector with itself gives the zero vector. -/
theorem blendReal_replicate_zero (n : Nat) (w : ℝ) :
    blendReal (List.replicate n 0) (List.replicate n 0) w = List.replicate n 0 := by
  induction n with
  | zero => rfl
  | succ k ih =>
    simp only [List.replicate_succ, blendReal, List.zipWith_cons_cons] at *
    rw [ih]
    norm_num

/-- The zero vector has zero sum of squares. -/
theorem sumSquares_replicate_zero (n : Nat) : sumSquares (List.replicate n (0:ℝ)) = 0 := by
  simp [sumSquares]

/-- Core of C5: a biometric mark whose blended descriptor has zero L2 norm
does not fail — the route still answers `marked` — and the degenerate
all-`NaN` normalized descriptor *is* persisted to the student's stored
signature, with the update counter incremented. -/
theorem markAttendance_zero_norm (st : LedgerState ℝ) (sid cid clsId : Nat)
    (conf : ℚ) (ex fd : List ℝ) (day nowMs : Nat) (cutoff : String) (stu : Student ℝ)
    (h1 : findAttendance st.records sid cid day = none)
    (h2 : st.students.find? (fun s => s.id == sid) = some stu)
    (h3 : stu.faceDescriptor = ex.map some)
    (h4 : ex.length = 128) (h5 : fd.length = 128)
    (h6 : (6/10 : ℚ) ≤ conf)
    (h7 : sumSquares (blendReal ex fd (15/100)) = 0) :
    (∃ rec, (markAttendance Real.sqrt st sid cid clsId (some conf) (some fd) day nowMs cutoff).2
        = MarkOutcome.marked rec)
    ∧ ∃ s ∈ (markAttendance Real.sqrt st sid cid clsId (some conf) (some fd) day nowMs
        cutoff).1.students,
        s.id = sid ∧ s.faceDescriptor = List.replicate 128 none
        ∧ s.descriptorUpdateCount = stu.descriptorUpdateCount + 1 := by
  have hmem : stu ∈ st.students := List.mem_of_find?_eq_some h2
  have hpred := List.find?_some h2
  have hid : stu.id = sid := by simpa using hpred
  have hgate : ((fd.length == 128 && decide ((6/10 : ℚ) ≤ conf))
      && stu.faceDescriptor.length == 128) = true := by
    simp [h3, h4, h5, h6]
  simp only [markAttendance, h1, h2, hgate, if_true]
  refine ⟨⟨_, rfl⟩, ?_⟩
  refine ⟨_, List.mem_map_of_mem _ hmem, ?_⟩
  rw [if_pos hpred]
  refine ⟨hid, ?_, rfl⟩
  show fuseSignature Real.sqrt stu.faceDescriptor (fd.map some) (15/100)
    = List.replicate 128 none
  rw [h3, fuseSignature, blendDescriptors_map_some, jsNormalize_zero_norm _ h7]
  congr 1
  rw [blendReal, List.length_zipWith, h4, h5]
  exact min_self 128

/-- C5 counterexample: a concrete marking call whose blended descriptor has
zero L2 norm (stored and observed descriptors both the 128-dimensional
zero vector).  The fusion does not fail with a numeric error, and a fused
result — the all-non-finite vector produced by dividing by the zero
magnitude — is persisted to the member's stored signature (the update
counter moves from 0 to 1). -/
theorem fusion_degenerate_persists_cex :
    ∃ s ∈ (markAttendance Real.sqrt (zeroSigState 1 10 0 0)
        1 20 10 (some (9/10)) (some (List.replicate 128 (0:ℝ))) 5 0 "09:00").1.students,
      s.id = 1 ∧ s.faceDescriptor = List.replicate 128 none ∧ s.descriptorUpdateCount = 1 := by
  have h := markAttendance_zero_norm (zeroSigState 1 10 0 0)
    1 20 10 (9/10) (List.replicate 128 (0:ℝ)) (List.replicate 128 (0:ℝ)) 5 0 "09:00"
    (zeroSigStudent 1 10 0)
    rfl rfl (by rw [List.map_replicate]; rfl) (by simp) (by simp) (by norm_num)
    (by rw [blendReal_replicate_zero]; exact sumSquares_replicate_zero 128)
  exact h.2

/-- C5 amended: on zero-norm blended input the fusion does not fail with a
numeric error — the marking call still succeeds — and the degenerate fused
result (every component the non-finite `0/0`) *is* persisted to the
member's stored signature. -/
theorem fusion_degenerate_persists (st : LedgerState ℝ) (sid cid clsId : Nat)
    (conf : ℚ) (ex fd : List ℝ) (day nowMs : Nat) (cutoff : String) (stu : Student ℝ)
    (h1 : findAttendance st.records sid cid day = none)
    (h2 : st.students.find? (fun s => s.id == sid) = some stu)
    (h3 : stu.faceDescriptor = ex.map some)
    (h4 : ex.length = 128) (h5 : fd.length = 128)
    (h6 : (6/10 : ℚ) ≤ conf)
    (h7 : sumSquares (blendReal ex fd (15/100)) = 0) :
    (∃ rec, (markAttendance Real.sqrt st sid cid clsId (some conf) (some fd) day nowMs cutoff).2
        = MarkOutcome.marked rec)
    ∧ ∃ s ∈ (markAttendance Real.sqrt st sid cid clsId (some conf) (some fd) day nowMs
        cutoff).1.students,
        s.id = sid ∧ s.faceDescriptor = List.replicate 128 none
        ∧ s.descriptorUpdateCount = stu.descriptorUpdateCount + 1 :=
  markAttendance_zero_norm st sid cid clsId conf ex fd day nowMs cutoff stu
    h1 h2 h3 h4 h5 h6 h7

/-- Witness for the amended C5, at a concrete degenerate input. -/
theorem fusion_degenerate_persists_witness :
    (∃ rec, (markAttendance Real.sqrt (zeroSigState 2 11 3 7)
        2 21 11 (some (7/10)) (some (List.replicate 128 (0:ℝ))) 6 0 "08:30").2
        = MarkOutcome.marked rec)
    ∧ ∃ s ∈ (markAttendance Real.sqrt (zeroSigState 2 11 3 7)
        2 21 11 (some (7/10)) (some (List.replicate 128 (0:ℝ))) 6 0 "08:30").1.students,
        s.id = 2 ∧ s.faceDescriptor = List.replicate 128 none
        ∧ s.descriptorUpdateCount = (zeroSigStudent 2 11 3).descriptorUpdateCount + 1 :=
  fusion_degenerate_persists (zeroSigState 2 11 3 7)
    2 21 11 (7/10) (List.replicate 128 (0:ℝ)) (List.replicate 128 (0:ℝ)) 6 0 "08:30"
    (zeroSigStudent 2 11 3)
    rfl rfl (by rw [List.map_replicate]; rfl) (by simp) (by simp) (by norm_num)
    (by rw [blendReal_replicate_zero]; exact sumSquares_replicate_zero 128)

/-! ## C6: duplicate marking is rejected without touching state -/

/-- C6: a MarkBiometric or MarkManual request for a (member, course, day)
that already holds an attendance record fails with the duplicate error
carrying `alreadyMarked = true`, creates no record, and performs no
signature fusion: the returned state is exactly the input state. -/
theorem duplicate_mark_rejected {α : Type} [LinearOrderedField α] (sqrt : α → α)
    (st : LedgerState α) (sid cid clsId : Nat) (conf : Option ℚ) (fd : Option (List α))
    (day nowMs : Nat) (cutoff : String) (status : Status) (r : AttendanceRecord)
    (h : findAttendance st.records sid cid day = some r) :
    markAttendance sqrt st sid cid clsId conf fd day nowMs cutoff
        = (st, MarkOutcome.duplicate true)
    ∧ markManual st sid cid clsId status day = (st, MarkOutcome.duplicate true) := by
  constructor
  · simp only [markAttendance, h]
  · simp only [markManual, h]

/-- Witness for C6 at a concrete marked ledger. -/
theorem duplicate_mark_rejected_witness :
    findAttendance wMarkedState.records 1 20 5 = some wRecord
    ∧ (markAttendance (fun q : ℚ => q) wMarkedState 1 20 10 none none 5 0 "09:00"
        = (wMarkedState, MarkOutcome.duplicate true)
      ∧ markManual wMarkedState 1 20 10 Status.late 5
        = (wMarkedState, MarkOutcome.duplicate true)) :=
  ⟨by decide, duplicate_mark_rejected (fun q : ℚ => q) wMarkedState 1 20 10 none none 5 0
    "09:00" Status.late wRecord (by decide)⟩

/-! ## C10: falsy confidence scores on the biometric path -/

/-- C10: a biometric mark with a missing or zero (falsy) confidence still
succeeds — the record is created with confidence 0 and source
`facial_recognition`, and no signature fusion runs (the student collection
is unchanged); with any nonzero confidence value the created record stores
exactly that value (`confidenceScore || 0`). -/
theorem biometric_confidence_handling {α : Type} [LinearOrderedField α] (sqrt : α → α)
    (st : LedgerState α) (sid cid clsId day nowMs : Nat) (cutoff : String) (stu : Student α)
    (hnone : findAttendance st.records sid cid day = none)
    (hstu : st.students.find? (fun s => s.id == sid) = some stu) :
    (∀ (fd : Option (List α)) (conf : Option ℚ), (conf = none ∨ conf = some 0) →
      ∃ st1 rec1, markAttendance sqrt st sid cid clsId conf fd day nowMs cutoff
          = (st1, MarkOutcome.marked rec1)
        ∧ rec1.confidenceScore = 0
        ∧ rec1.markedBy = MarkedBy.facial_recognition
        ∧ st1.students = st.students
        ∧ st1.records = st.records ++ [rec1])
    ∧ (∀ (fd : Option (List α)) (q : ℚ), q ≠ 0 →
      ∃ st1 rec1, markAttendance sqrt st sid cid clsId (some q) fd day nowMs cutoff
          = (st1, MarkOutcome.marked rec1)
        ∧ rec1.confidenceScore = q) := by
  have hdec : decide ((6/10 : ℚ) ≤ (0:ℚ)) = false := decide_eq_false (by norm_num)
  constructor
  · rintro fd conf (rfl | rfl)
    · cases fd with
      | none =>
        simp only [markAttendance, hnone, hstu]
        exact ⟨_, _, rfl, rfl, rfl, rfl, rfl⟩
      | some fd0 =>
        simp only [markAttendance, hnone, hstu]
        exact ⟨_, _, rfl, rfl, rfl, rfl, rfl⟩
    · cases fd with
      | none =>
        simp only [markAttendance, hnone, hstu]
        exact ⟨_, _, rfl, rfl, rfl, rfl, rfl⟩
      | some fd0 =>
        simp only [markAttendance, hnone, hstu, hdec, Bool.and_false, Bool.false_and,
          Bool.false_eq_true, if_false]
        exact ⟨_, _, rfl, rfl, rfl, rfl, rfl⟩
  · intro fd q hq
    simp only [markAttendance, hnone, hstu]
    exact ⟨_, _, rfl, rfl⟩

/-- Witness for C10 at a concrete fresh ledger. -/
theorem biometric_confidence_handling_witness :
    findAttendance wFreshState.records 1 20 5 = none
    ∧ wFreshState.students.find? (fun s => s.id == 1) = some wStudent
    ∧ ((∀ (fd : Option (List ℚ)) (conf : Option ℚ), (conf = none ∨ conf = some 0) →
        ∃ st1 rec1, markAttendance (fun q : ℚ => q) wFreshState 1 20 10 conf fd 5 0 "09:00"
            = (st1, MarkOutcome.marked rec1)
          ∧ rec1.confidenceScore = 0
          ∧ rec1.markedBy = MarkedBy.facial_recognition
          ∧ st1.students = wFreshState.students
          ∧ st1.records = wFreshState.records ++ [rec1])
      ∧ (∀ (fd : Option (List ℚ)) (q : ℚ), q ≠ 0 →
        ∃ st1 rec1, markAttendance (fun q : ℚ => q) wFreshState 1 20 10 (some q) fd 5 0 "09:00"
            = (st1, MarkOutcome.marked rec1)
          ∧ rec1.confidenceScore = q)) :=
  ⟨rfl, rfl, biometric_confidence_handling (fun q : ℚ => q) wFreshState 1 20 10 5 0 "09:00"
    wStudent rfl rfl⟩

/-! ## C7: finalize is idempotent -/

/-- The `map studentRef` of the bulk absent records is the `map id` of the
students they were created for. -/
theorem mkAbsentRecords_studentRefs {α : Type} (n cid cls day : Nat) (l : List (Student α)) :
    (mkAbsentRecords n cid cls day l).map (fun r => r.studentRef) = l.map (fun s => s.id) := by
  induction l generalizing n with
  | nil => rfl
  | cons s rest ih => simp [mkAbsentRecords, ih]

/-- Every bulk absent record matches the (course, class, day) filter of the
marked-records query. -/
theorem mkAbsentRecords_filter_marked {α : Type} (n cid cls day : Nat) (l : List (Student α)) :
    (mkAbsentRecords (α := α) n cid cls day l).filter
      (fun r => r.courseRef == cid && r.classRef == cls && r.sessionDate == day)
      = mkAbsentRecords n cid cls day l := by
  induction l generalizing n with
  | nil => rfl
  | cons s rest ih => simp [mkAbsentRecords, ih]

/-- After `endSession` with `markAbsent = true`, no enrolled student of the
class is unmarked for (course, day): the marked set now covers everyone. -/
theorem unmarked_after_finalize {α : Type} (st : LedgerState α) (cls cid day : Nat) :
    unmarkedStudentsOf (endSession st cls cid true day).1.students
      (endSession st cls cid true day).1.records cls cid day = [] := by
  by_cases hlen : 0 < (unmarkedStudentsOf st.students st.records cls cid day).length
  · have hd : decide (0 < (unmarkedStudentsOf st.students st.records cls cid day).length)
        = true := decide_eq_true hlen
    simp only [endSession, hd, Bool.true_and, if_true]
    rw [unmarkedStudentsOf, List.filter_eq_nil_iff]
    intro s hs
    have hsid : s.id ∈ (markedProj
        (st.records ++ mkAbsentRecords st.nextId cid cls day
          (unmarkedStudentsOf st.students st.records cls cid day)) cls cid day).map
        (fun a => a.studentRef) := by
      simp only [markedProj, List.filter_append, List.map_append,
        mkAbsentRecords_filter_marked, List.map_map]
      rw [List.mem_append]
      by_cases hmem : s.id ∈ (markedProj st.records cls cid day).map (fun a => a.studentRef)
      · left
        simpa [markedProj, List.map_map] using hmem
      · right
        have hsu : s ∈ unmarkedStudentsOf st.students st.records cls cid day := by
          rw [unmarkedStudentsOf, List.mem_filter]
          exact ⟨hs, by simpa using hmem⟩
        have := List.mem_map_of_mem (fun s : Student α => s.id) hsu
        rw [← mkAbsentRecords_studentRefs st.nextId cid cls day] at this
        simpa [List.map_map] using this
    simp [hsid]
  · have hnil : unmarkedStudentsOf st.students st.records cls cid day = [] :=
      List.length_eq_zero.mp (by omega)
    have hd : decide (0 < (unmarkedStudentsOf st.students st.records cls cid day).length)
        = false := by
      rw [hnil]
      rfl
    simp only [endSession, hd, Bool.and_false]
    simp only [Bool.false_eq_true, if_false]
    exact hnil

/-- C7: Finalize is idempotent — running end-session with
`markAbsent = true` twice for the same (classGroup, course, day) reports
zero newly-absent records on the second run, and the second run creates no
records (the state is unchanged). -/
theorem finalize_idempotent {α : Type} (st : LedgerState α) (cls cid day : Nat) :
    (endSession (endSession st cls cid true day).1 cls cid true day).2.absentCount = 0
    ∧ (endSession (endSession st cls cid true day).1 cls cid true day).1
        = (endSession st cls cid true day).1 := by
  have h := unmarked_after_finalize st cls cid day
  constructor
  · rw [endSession]
    simp [h]
  · rw [endSession]
    simp [h]

/-- Witness for C7 at a concrete ledger (one enrolled, none marked: the
first run marks the student absent, the second reports zero absents). -/
theorem finalize_idempotent_witness :
    (endSession (endSession wFreshState 10 20 true 5).1 10 20 true 5).2.absentCount = 0
    ∧ (endSession (endSession wFreshState 10 20 true 5).1 10 20 true 5).1
        = (endSession wFreshState 10 20 true 5).1 :=
  finalize_idempotent wFreshState 10 20 5

/-! ## C8: the end-session present/late count -/

/-- C8: the code does not return the number of present/late records.  The
marked records are fetched with `.select('studentRef')`, so `a.status` is
`undefined` on every element and the filter `a.status !== 'absent'` keeps
*all* records for the key, absent ones included.  At a ledger where member
1 is marked `absent` for (course 20, class 10, day 5), end-session reports
`presentCount = 1` although zero records for that session have status
present or late.  (The scenario count is right only when no absent record
exists before the call.) -/
theorem endSession_presentCount_bug :
    (endSession wAbsentState 10 20 true 5).2.presentCount = 1
    ∧ (wAbsentState.records.filter (fun r =>
        (r.status == Status.present || r.status == Status.late)
        && r.courseRef == 20 && r.classRef == 10 && r.sessionDate == 5)).length = 0 := by
  decide

/-! ## C9: cancel then re-mark -/

/-- A list whose filtering leaves exactly one element has that element as
its first find. -/
theorem find?_of_filter_singleton {β : Type} {p : β → Bool} {l : List β} {a : β}
    (h : l.filter p = [a]) : l.find? p = some a := by
  induction l with
  | nil => simp at h
  | cons x xs ih =>
    by_cases hx : p x = true
    · rw [List.filter_cons_of_pos hx] at h
      rw [List.find?_cons_of_pos _ hx]
      exact congrArg some (List.cons_eq_cons.mp h).1
    · rw [List.filter_cons_of_neg (by simpa using hx)] at h
      rw [List.find?_cons_of_neg _ hx]
      exact ih h

/-- C9: when a (member, course, day) key holds exactly one attendance
record, cancelling that record succeeds and returns it; afterwards the
member is unmarked for the key (it appears in the unmarked-students
computation used by Finalize) and an immediately following MarkManual or
MarkBiometric for the same key succeeds — no stale duplicate block. -/
theorem cancel_then_remark {α : Type} [LinearOrderedField α] (sqrt : α → α)
    (st : LedgerState α) (sid cid clsId day nowMs : Nat) (cutoff : String)
    (conf : Option ℚ) (fd : Option (List α)) (status : Status)
    (r : AttendanceRecord) (stu : Student α)
    (hkey : st.records.filter (fun q =>
        q.studentRef == sid && q.courseRef == cid && q.sessionDate == day) = [r])
    (hid : st.records.filter (fun q => q.recId == r.recId) = [r])
    (hstu : st.students.find? (fun s => s.id == sid) = some stu)
    (hcls : stu.classRef = clsId) (henr : stu.isEnrolled = true) :
    ∃ st1, cancelAttendance st r.recId = (st1, CancelOutcome.deleted r)
      ∧ findAttendance st1.records sid cid day = none
      ∧ stu ∈ unmarkedStudentsOf st1.students st1.records clsId cid day
      ∧ (∃ st2 rec2, markManual st1 sid cid clsId status day
          = (st2, MarkOutcome.marked rec2))
      ∧ (∃ st3 rec3, markAttendance sqrt st1 sid cid clsId conf fd day nowMs cutoff
          = (st3, MarkOutcome.marked rec3)) := by
  have hfind : st.records.find? (fun q => q.recId == r.recId) = some r :=
    find?_of_filter_singleton hid
  have hsid : stu.id = sid := by simpa using List.find?_some hstu
  have hkeyone : ∀ q ∈ st.records,
      (q.studentRef == sid && q.courseRef == cid && q.sessionDate == day) = true → q = r := by
    intro q hq hpred
    have : q ∈ st.records.filter (fun q =>
        q.studentRef == sid && q.courseRef == cid && q.sessionDate == day) :=
      List.mem_filter.mpr ⟨hq, hpred⟩
    rw [hkey] at this
    simpa using this
  have hnone1 : findAttendance
      (st.records.filter (fun q => q.recId != r.recId)) sid cid day = none := by
    rw [findAttendance, List.find?_eq_none]
    intro q hq
    rw [List.mem_filter] at hq
    intro hpred
    have hqr : q = r := hkeyone q hq.1 hpred
    rw [hqr] at hq
    simp at hq
  refine ⟨{ st with records := st.records.filter (fun q => q.recId != r.recId) },
    ?_, hnone1, ?_, ?_, ?_⟩
  · simp only [cancelAttendance, hfind]
  · rw [unmarkedStudentsOf, List.mem_filter]
    refine ⟨?_, ?_⟩
    · rw [enrolledStudents, List.mem_filter]
      exact ⟨List.mem_of_find?_eq_some hstu, by simp [hcls, henr]⟩
    · have hnotin : stu.id ∉ (markedProj
          (st.records.filter (fun q => q.recId != r.recId)) clsId cid day).map
          (fun a => a.studentRef) := by
        intro hcontra
        rw [List.mem_map] at hcontra
        obtain ⟨a, ha, haid⟩ := hcontra
        rw [markedProj, List.mem_map] at ha
        obtain ⟨q, hq, rfl⟩ := ha
        rw [List.mem_filter] at hq
        have haid2 : q.studentRef = sid := by
          rw [← hsid]
          simpa using haid
        have hq2 := List.mem_filter.mp hq.1
        have hmk := hq.2
        have hqpred : (q.studentRef == sid && q.courseRef == cid && q.sessionDate == day)
            = true := by
          simp only [Bool.and_eq_true, beq_iff_eq] at hmk ⊢
          exact ⟨⟨haid2, hmk.1.1⟩, hmk.2⟩
        have hqr : q = r := hkeyone q hq2.1 hqpred
        rw [hqr] at hq2
        simp at hq2
      simp [hnotin]
  · simp only [markManual, hnone1]
    exact ⟨_, _, rfl⟩
  · simp only [markAttendance, hnone1, hstu]
    exact ⟨_, _, rfl⟩

/-- Witness for C9: the marked ledger holds exactly the one record
`wRecord` for (member 1, course 20, day 5); cancelling it and re-marking
succeeds. -/
theorem cancel_then_remark_witness :
    (wMarkedState.records.filter (fun q =>
        q.studentRef == 1 && q.courseRef == 20 && q.sessionDate == 5) = [wRecord])
    ∧ (wMarkedState.records.filter (fun q => q.recId == wRecord.recId) = [wRecord])
    ∧ (wMarkedState.students.find? (fun s => s.id == 1) = some wStudent)
    ∧ ∃ st1, cancelAttendance wMarkedState wRecord.recId = (st1, CancelOutcome.deleted wRecord)
      ∧ findAttendance st1.records 1 20 5 = none
      ∧ wStudent ∈ unmarkedStudentsOf st1.students st1.records 10 20 5
      ∧ (∃ st2 rec2, markManual st1 1 20 10 Status.present 5
          = (st2, MarkOutcome.marked rec2))
      ∧ (∃ st3 rec3, markAttendance (fun q : ℚ => q) st1 1 20 10 none none 5 0 "09:00"
          = (st3, MarkOutcome.marked rec3)) :=
  ⟨by decide, by decide, rfl,
    cancel_then_remark (fun q : ℚ => q) wMarkedState 1 20 10 5 0 "09:00" none none
      Status.present wRecord wStudent (by decide) (by decide) rfl rfl rfl⟩

/-! ## C1: the one-record-per-(member, course, day) invariant -/

/-- The student ids are the first components of the roster skeleton. -/
theorem ids_eq_rosterOf_fst {α : Type} (students : List (Student α)) :
    students.map (fun s => s.id) = (rosterOf students).map Prod.fst := by
  rw [rosterOf, List.map_map]
  rfl

/-- Marking never changes any student's id or class: the fusion update
rewrites only the descriptor and its counter. -/
theorem markAttendance_rosterOf {α : Type} [LinearOrderedField α] (sqrt : α → α)
    (st : LedgerState α) (sid cid clsId : Nat) (conf : Option ℚ) (fd : Option (List α))
    (day nowMs : Nat) (cutoff : String) :
    rosterOf (markAttendance sqrt st sid cid clsId conf fd day nowMs cutoff).1.students
      = rosterOf st.students := by
  cases h : findAttendance st.records sid cid day with
  | some r => simp only [markAttendance, h]
  | none =>
    cases h2 : st.students.find? (fun s => s.id == sid) with
    | none => simp only [markAttendance, h, h2]
    | some stu =>
      simp only [markAttendance, h, h2]
      cases fd with
      | none => rfl
      | some fd0 =>
        cases conf with
        | none => rfl
        | some c =>
          dsimp only
          by_cases hg : (fd0.length == 128 && decide ((6/10 : ℚ) ≤ c)
              && stu.faceDescriptor.length == 128) = true
          · rw [if_pos hg, rosterOf, rosterOf, List.map_map]
            apply List.map_congr_left
            intro s _
            simp only [Function.comp_apply]
            split_ifs <;> simp
          · rw [if_neg hg]

/-- A biometric mark either leaves the records unchanged (duplicate, or
member not found) or — when the duplicate check passed — appends exactly
one record for the requested key. -/
theorem markAttendance_records_cases {α : Type} [LinearOrderedField α] (sqrt : α → α)
    (st : LedgerState α) (sid cid clsId : Nat) (conf : Option ℚ) (fd : Option (List α))
    (day nowMs : Nat) (cutoff : String) :
    (markAttendance sqrt st sid cid clsId conf fd day nowMs cutoff).1.records = st.records
    ∨ (findAttendance st.records sid cid day = none
      ∧ (markAttendance sqrt st sid cid clsId conf fd day nowMs cutoff).1.records
        = st.records ++ [bioRecord st sid cid clsId conf day nowMs cutoff]) := by
  cases h : findAttendance st.records sid cid day with
  | some r =>
    left
    simp only [markAttendance, h]
  | none =>
    cases h2 : st.students.find? (fun s => s.id == sid) with
    | none =>
      left
      simp only [markAttendance, h, h2]
    | some stu =>
      right
      refine ⟨rfl, ?_⟩
      simp only [markAttendance, h, h2]
      rfl

/-- The Boolean key filter used by the duplicate check matches exactly the
records with the given key. -/
theorem keyPred_iff {r : AttendanceRecord} {sid cid day : Nat} :
    (r.studentRef == sid && r.courseRef == cid && r.sessionDate == day) = true
      ↔ recKey r = (sid, cid, day) := by
  simp [recKey, Bool.and_eq_true, beq_iff_eq, Prod.ext_iff]
  tauto

/-- Appending a record whose key the duplicate check found absent keeps
the record keys pairwise distinct. -/
theorem keysNodup_append_mark (records : List AttendanceRecord) (newRec : AttendanceRecord)
    (hnodup : (records.map recKey).Nodup)
    (hnone : findAttendance records newRec.studentRef newRec.courseRef newRec.sessionDate
      = none) :
    ((records ++ [newRec]).map recKey).Nodup := by
  rw [List.map_append, List.nodup_append]
  refine ⟨hnodup, by simp, ?_⟩
  intro k hk hk2
  simp only [List.map_cons, List.map_nil, List.mem_singleton] at hk2
  rw [List.mem_map] at hk
  obtain ⟨r, hr, rfl⟩ := hk
  rw [findAttendance, List.find?_eq_none] at hnone
  apply hnone r hr
  rw [keyPred_iff, hk2, recKey]

/-- The keys of the bulk absent records are the (id, course, day) of the
students they are created for. -/
theorem mkAbsentRecords_map_key {α : Type} (n cid cls day : Nat) (l : List (Student α)) :
    (mkAbsentRecords n cid cls day l).map recKey = l.map (fun s => (s.id, cid, day)) := by
  induction l generalizing n with
  | nil => rfl
  | cons s rest ih => simp [mkAbsentRecords, recKey, ih]

/-- Field values of any bulk-created absent record. -/
theorem mkAbsentRecords_mem {α : Type} {n cid cls day : Nat} {l : List (Student α)}
    {r : AttendanceRecord} (h : r ∈ mkAbsentRecords n cid cls day l) :
    r.courseRef = cid ∧ r.classRef = cls ∧ r.sessionDate = day
    ∧ ∃ s ∈ l, r.studentRef = s.id := by
  induction l generalizing n with
  | nil => cases h
  | cons s rest ih =>
    rw [mkAbsentRecords, List.mem_cons] at h
    rcases h with rfl | h
    · exact ⟨rfl, rfl, rfl, s, List.mem_cons_self s rest, rfl⟩
    · obtain ⟨h1, h2, h3, t, ht, h4⟩ := ih h
      exact ⟨h1, h2, h3, t, List.mem_cons_of_mem s ht, h4⟩

/-- The unmarked students form a sublist of the student collection. -/
theorem unmarked_sublist {α : Type} (students : List (Student α))
    (records : List AttendanceRecord) (cls cid day : Nat) :
    (unmarkedStudentsOf students records cls cid day).Sublist students :=
  ((List.filter_sublist _).trans (List.filter_sublist _))

/-- Distinct roster ids stay distinct on the unmarked sublist. -/
theorem unmarked_ids_nodup {α : Type} {students : List (Student α)}
    (records : List AttendanceRecord) (cls cid day : Nat)
    (h : (students.map (fun s => s.id)).Nodup) :
    ((unmarkedStudentsOf students records cls cid day).map (fun s => s.id)).Nodup :=
  h.sublist ((unmarked_sublist students records cls cid day).map _)

/-- What membership in the unmarked set means: enrolled in the class and
with no record matching the session's (course, class, day) filter. -/
theorem mem_unmarked {α : Type} {students : List (Student α)}
    {records : List AttendanceRecord} {cls cid day : Nat} {s : Student α}
    (h : s ∈ unmarkedStudentsOf students records cls cid day) :
    s ∈ students ∧ s.classRef = cls ∧ s.isEnrolled = true
    ∧ ∀ r ∈ records, ¬((r.courseRef == cid && r.classRef == cls && r.sessionDate == day)
        = true ∧ r.studentRef = s.id) := by
  rw [unmarkedStudentsOf, List.mem_filter, enrolledStudents, List.mem_filter] at h
  obtain ⟨⟨hmem, hcls⟩, hunm⟩ := h
  simp only [Bool.and_eq_true, beq_iff_eq] at hcls
  refine ⟨hmem, hcls.1, hcls.2, ?_⟩
  intro r hr ⟨hpred, hsid⟩
  have : s.id ∈ (markedProj records cls cid day).map (fun a => a.studentRef) := by
    rw [markedProj, List.map_map, List.mem_map]
    exact ⟨r, List.mem_filter.mpr ⟨hr, hpred⟩, by simpa using hsid⟩
  simp [this] at hunm

/-- End-session either leaves the state unchanged or appends the bulk
absent records for the currently unmarked students. -/
theorem endSession_state_cases {α : Type} (st : LedgerState α) (cls cid : Nat) (mk : Bool)
    (day : Nat) :
    (endSession st cls cid mk day).1 = st
    ∨ (endSession st cls cid mk day).1
      = { st with
          records := st.records ++ mkAbsentRecords st.nextId cid cls day
            (unmarkedStudentsOf st.students st.records cls cid day),
          nextId := st.nextId + (mkAbsentRecords st.nextId cid cls day
            (unmarkedStudentsOf st.students st.records cls cid day)).length } := by
  by_cases hc : (mk && decide
      (0 < (unmarkedStudentsOf st.students st.records cls cid day).length)) = true
  · right
    simp only [endSession]
    rw [if_pos hc]
  · left
    simp only [endSession]
    rw [if_neg hc]

/-- Appending a mark whose class matches the member's roster class
preserves class-consistency. -/
theorem classConsistent_append_mark {α : Type} (st : LedgerState α) (sid clsId : Nat)
    (newRec : AttendanceRecord) (hC : ClassConsistent st)
    (hsid : newRec.studentRef = sid) (hcls : newRec.classRef = clsId)
    (hOK : (rosterOf st.students).all (fun p => !(p.1 == sid) || p.2 == clsId) = true) :
    ∀ r ∈ st.records ++ [newRec], ∀ p ∈ rosterOf st.students,
      p.1 = r.studentRef → r.classRef = p.2 := by
  intro r hr p hp hpid
  rcases List.mem_append.mp hr with hr | hr
  · exact hC r hr p hp hpid
  · rw [List.mem_singleton] at hr
    subst hr
    rw [List.all_eq_true] at hOK
    have hthis := hOK p hp
    rw [hsid] at hpid
    simp only [hpid, beq_self_eq_true, Bool.not_true, Bool.false_or, beq_iff_eq] at hthis
    rw [hcls, hthis]

/-- One class-consistent operation preserves key uniqueness,
class-consistency and the roster skeleton. -/
theorem inv_applyOp {α : Type} [LinearOrderedField α] (sqrt : α → α) (st : LedgerState α)
    (op : Op α) (hK : KeysNodup st) (hC : ClassConsistent st) (hI : IdsNodup st)
    (hOK : opOK (rosterOf st.students) op = true) :
    KeysNodup (applyOp sqrt st op) ∧ ClassConsistent (applyOp sqrt st op)
    ∧ IdsNodup (applyOp sqrt st op)
    ∧ rosterOf (applyOp sqrt st op).students = rosterOf st.students := by
  cases op with
  | markBiometric sid cid clsId conf fd day nowMs cutoff =>
    simp only [applyOp]
    simp only [opOK] at hOK
    have hros : rosterOf (markAttendance sqrt st sid cid clsId conf fd day nowMs
        cutoff).1.students = rosterOf st.students :=
      markAttendance_rosterOf sqrt st sid cid clsId conf fd day nowMs cutoff
    have hIds : IdsNodup (markAttendance sqrt st sid cid clsId conf fd day nowMs cutoff).1 := by
      rw [IdsNodup, ids_eq_rosterOf_fst, hros, ← ids_eq_rosterOf_fst]
      exact hI
    rcases markAttendance_records_cases sqrt st sid cid clsId conf fd day nowMs cutoff with
      hrec | ⟨hnone, hrec⟩
    · refine ⟨?_, ?_, hIds, hros⟩
      · rw [KeysNodup, hrec]
        exact hK
      · intro r hr p hp hpid
        rw [hros] at hp
        rw [hrec] at hr
        exact hC r hr p hp hpid
    · refine ⟨?_, ?_, hIds, hros⟩
      · rw [KeysNodup, hrec]
        exact keysNodup_append_mark _ _ hK hnone
      · intro r hr p hp hpid
        rw [hros] at hp
        rw [hrec] at hr
        exact classConsistent_append_mark st sid clsId _ hC rfl rfl hOK r hr p hp hpid
  | markManual sid cid clsId status day =>
    simp only [opOK] at hOK
    cases h : findAttendance st.records sid cid day with
    | some r =>
      simp only [applyOp, markManual, h]
      exact ⟨hK, hC, hI, by trivial⟩
    | none =>
      simp only [applyOp, markManual, h]
      refine ⟨?_, ?_, hI, by trivial⟩
      · exact keysNodup_append_mark _ _ hK h
      · intro r hr p hp hpid
        exact classConsistent_append_mark st sid clsId _ hC rfl rfl hOK r hr p hp hpid
  | finalize cls cid mk day =>
    rcases endSession_state_cases st cls cid mk day with hst | hst
    · simp only [applyOp, hst]
      exact ⟨hK, hC, hI, by trivial⟩
    · simp only [applyOp, hst]
      refine ⟨?_, ?_, hI, by trivial⟩
      · rw [KeysNodup, List.map_append, List.nodup_append]
        refine ⟨hK, ?_, ?_⟩
        · rw [mkAbsentRecords_map_key,
            show (fun s : Student α => (s.id, cid, day))
              = (fun i : Nat => (i, cid, day)) ∘ (fun s : Student α => s.id) from rfl,
            ← List.map_map]
          apply List.Nodup.map
          · intro a b hab
            simpa [Prod.ext_iff] using hab
          · exact unmarked_ids_nodup st.records cls cid day hI
        · intro k hk hk2
          rw [mkAbsentRecords_map_key, List.mem_map] at hk2
          obtain ⟨s, hsu, rfl⟩ := hk2
          rw [List.mem_map] at hk
          obtain ⟨r, hr, hkey⟩ := hk
          obtain ⟨hmem, hcls, henr, hnr⟩ := mem_unmarked hsu
          rw [recKey, Prod.ext_iff, Prod.ext_iff] at hkey
          have hclsr : r.classRef = s.classRef := by
            apply hC r hr (s.id, s.classRef)
            · rw [rosterOf, List.mem_map]
              exact ⟨s, hmem, rfl⟩
            · exact hkey.1.symm
          apply hnr r hr
          constructor
          · simp only [Bool.and_eq_true, beq_iff_eq]
            exact ⟨⟨hkey.2.1, by rw [hclsr, hcls]⟩, hkey.2.2⟩
          · exact hkey.1
      · intro r hr p hp hpid
        rcases List.mem_append.mp hr with hr | hr
        · exact hC r hr p hp hpid
        · obtain ⟨hcid, hclsr, hday, s, hsu, hsid⟩ := mkAbsentRecords_mem hr
          obtain ⟨hmem, hscls, henr, -⟩ := mem_unmarked hsu
          rw [rosterOf, List.mem_map] at hp
          obtain ⟨t, ht, rfl⟩ := hp
          have hts : t = s := by
            apply List.inj_on_of_nodup_map hI ht hmem
            show t.id = s.id
            rw [show t.id = (t.id, t.classRef).1 from rfl, hpid]
            exact hsid
          rw [hclsr, hts, hscls]
  | cancel aid =>
    cases h : st.records.find? (fun r => r.recId == aid) with
    | none =>
      simp only [applyOp, cancelAttendance, h]
      exact ⟨hK, hC, hI, by trivial⟩
    | some r =>
      simp only [applyOp, cancelAttendance, h]
      refine ⟨?_, ?_, hI, by trivial⟩
      · exact hK.sublist ((List.filter_sublist _).map _)
      · intro q hq p hp hpid
        exact hC q (List.mem_filter.mp hq).1 p hp hpid

/-- A sequence of class-consistent operations preserves key uniqueness. -/
theorem inv_applyOps {α : Type} [LinearOrderedField α] (sqrt : α → α) (ops : List (Op α))
    (st : LedgerState α) (hK : KeysNodup st) (hC : ClassConsistent st) (hI : IdsNodup st)
    (hOK : ∀ op ∈ ops, opOK (rosterOf st.students) op = true) :
    KeysNodup (applyOps sqrt st ops) := by
  induction ops generalizing st with
  | nil => exact hK
  | cons op rest ih =>
    rw [applyOps, List.foldl_cons]
    obtain ⟨hK2, hC2, hI2, hros⟩ := inv_applyOp sqrt st op hK hC hI
      (hOK op (List.mem_cons_self op rest))
    exact ih (applyOp sqrt st op) hK2 hC2 hI2
      (by rw [hros]; exact fun o ho => hOK o (List.mem_cons_of_mem op ho))

/-- Pairwise-distinct keys give the at-most-one-record-per-key bound. -/
theorem atMostOne_of_keysNodup {α : Type} (st : LedgerState α) (h : KeysNodup st) :
    AtMostOneRecord st := by
  intro sid cid day
  have hsub : ((recordsFor st sid cid day).map recKey).Sublist (st.records.map recKey) :=
    (List.filter_sublist _).map recKey
  have hnodup := h.sublist hsub
  have hall : ∀ k ∈ (recordsFor st sid cid day).map recKey, k = (sid, cid, day) := by
    intro k hk
    rw [List.mem_map] at hk
    obtain ⟨r, hr, rfl⟩ := hk
    rw [recordsFor, List.mem_filter] at hr
    exact keyPred_iff.mp hr.2
  rw [show (recordsFor st sid cid day).length
      = ((recordsFor st sid cid day).map recKey).length from (List.length_map _ _).symm]
  cases hm : (recordsFor st sid cid day).map recKey with
  | nil => simp
  | cons a l2 =>
    cases l2 with
    | nil => simp
    | cons b t =>
      exfalso
      rw [hm] at hnodup hall
      have ha := hall a (List.mem_cons_self a _)
      have hb := hall b (List.mem_cons_of_mem a (List.mem_cons_self b t))
      rw [List.nodup_cons] at hnodup
      exact hnodup.1 (by rw [ha, hb]; exact List.mem_cons_self _ t)

/-- C1 amended: starting from an empty ledger whose roster has distinct
member ids, any sequence of MarkBiometric / MarkManual / Finalize / Cancel
operations in which every marking call names the class its member is
enrolled in leaves at most one attendance record per
(member, course, session-day) triple. -/
theorem uniqueness_invariant {α : Type} [LinearOrderedField α] (sqrt : α → α)
    (students0 : List (Student α)) (nid : Nat) (ops : List (Op α))
    (hids : (students0.map (fun s => s.id)).Nodup)
    (hOK : ∀ op ∈ ops, opOK (rosterOf students0) op = true) :
    AtMostOneRecord (applyOps sqrt
      { students := students0, records := [], nextId := nid } ops) := by
  apply atMostOne_of_keysNodup
  apply inv_applyOps sqrt ops _ _ _ _ hOK
  · exact List.nodup_nil
  · intro r hr p hp hpid
    cases hr
  · exact hids

/-- C1 counterexample: the operations themselves do not preserve the
invariant.  From an empty ledger holding one member of class 10, a manual
mark for (member 1, course 20) that names class 99 — the routes never
check the request's `classId` against the member's class — followed by
end-session for class 10 and course 20 creates a second record for the
same (member, course, day): the end-session marked-query filters by
`classRef`, misses the class-99 record, and marks the member absent
again. -/
theorem uniqueness_cex : ¬ AtMostOneRecord (applyOps Real.sqrt cexInit cexOps) := by
  intro h
  have h2 := h 1 20 5
  revert h2
  decide

/-- Witness for the amended C1 at a concrete class-consistent sequence
(mark, finalize, cancel). -/
theorem uniqueness_invariant_witness :
    (([wStudent].map (fun s => s.id)).Nodup)
    ∧ (∀ op ∈ ([Op.markManual 1 20 10 Status.present 5,
        Op.finalize 10 20 true 5, Op.cancel 0] : List (Op ℚ)),
        opOK (rosterOf [wStudent]) op = true)
    ∧ AtMostOneRecord (applyOps (fun q : ℚ => q)
        { students := [wStudent], records := [], nextId := 0 }
        [Op.markManual 1 20 10 Status.present 5,
         Op.finalize 10 20 true 5, Op.cancel 0]) :=
  ⟨by decide, by decide,
    uniqueness_invariant (fun q : ℚ => q) [wStudent] 0
      [Op.markManual 1 20 10 Status.present 5, Op.finalize 10 20 true 5, Op.cancel 0]
      (by decide) (by decide)⟩

end AMS
